import Mathlib

set_option linter.unusedVariables false

/-
Verification of the NTSB-Data incremental synchronization and
idempotent-merge engine.

This file gives a shallow embedding of the merge core of the repository:

  - src/db.py          : replace_dataframe, upsert_dataframe,
                         replace_child_for_events, log_processed_file,
                         get_processed_files, _table_exists
  - src/orchestrator.py: seed, update, _apply_update_file
  - src/downloader.py  : get_update_files (the up*.zip filename filter)
  - src/config.py      : TARGET_TABLES, LOOKUP_TABLES, TABLE_PRIMARY_KEYS,
                         LOOKUP_PRIMARY_KEYS

A SQLite table is modelled as a list of rows; a row is an ordered mapping
from column name to a typed value (integer, text, or NULL).  The whole
store is a pair of an association list of named tables and a ledger (the
_meta_sync table).  A table that does not exist in the database is
represented by the absence of its entry (Option Table elsewhere).
Comparisons between stored values follow the SQL rule that NULL compares
unequal to everything, including NULL itself.

Extraction (mdb_adapter.export_table) is an external collaborator; an
archive is modelled as a function from logical table name to either
absence (table not in the MDB), a batch of rows, or an extraction
failure (a raised exception in the Python source).
-/

namespace NTSB

/-- A SQLite storable value: INTEGER, TEXT, or NULL. -/
inductive Value where
  | intV : Int → Value
  | textV : String → Value
  | nullV : Value
deriving DecidableEq, Repr

/-- SQL three-valued equality collapsed to a Bool: a comparison involving
NULL is never true, and values of different storage classes are unequal. -/
def sqlEq (v w : Value) : Bool :=
  match v, w with
  | Value.intV a, Value.intV b => a == b
  | Value.textV a, Value.textV b => a == b
  | _, _ => false

/-- A row: ordered column-name-to-value mapping, as produced by extraction. -/
abbrev Row := List (String × Value)

/-- A table: the list of its rows (SQLite tables are row multisets; the
list order records insertion order, which all code paths determine). -/
abbrev Table := List Row

/-- Column access on a row; a column absent from the row reads as NULL. -/
def rowGet (r : Row) (c : String) : Value :=
  match r.find? (fun p => p.1 == c) with
  | some p => p.2
  | none => Value.nullV

/-- The correlated DELETE condition of db.upsert_dataframe: the target row
r agrees with the batch row b on every primary-key column. -/
def keyTupleMatches (keys : List String) (r b : Row) : Bool :=
  keys.all (fun k => sqlEq (rowGet r k) (rowGet b k))

/-- A target row matches the incoming batch when some batch row shares its
primary-key tuple (the EXISTS subquery in db.upsert_dataframe). -/
def matchesBatch (keys : List String) (df : Table) (r : Row) : Bool :=
  df.any (fun b => keyTupleMatches keys r b)

/-- db.replace_dataframe: full-table replace; empty batch is a no-op.
The argument t is the current contents of the target table (none when the
table does not exist); to_sql with if_exists="replace" creates it. -/
def replace_dataframe (df : Table) (t : Option Table) : Option Table :=
  if df.isEmpty then t else some df

/-- db.upsert_dataframe: write batch to a temp table; if the target does
not exist, rename the temp table into place; otherwise DELETE the target
rows whose key tuple matches some batch row, then INSERT the whole batch.
Empty batch is a no-op.  (The Python builds the DELETE from the key list;
the embedding is used, as the code is, only with non-empty key lists.) -/
def upsert_dataframe (df : Table) (primary_keys : List String) (t : Option Table) : Option Table :=
  if df.isEmpty then t
  else
    match t with
    | none => some df
    | some rows => some (rows.filter (fun r => !(matchesBatch primary_keys df r)) ++ df)

/-- The WHERE ev_id IN (...) membership test of db.replace_child_for_events,
with SQL comparison semantics (a NULL ev_id is in no list). -/
def evScopeMember (ev_ids : List Value) (r : Row) : Bool :=
  ev_ids.any (fun v => sqlEq (rowGet r "ev_id") v)

/-- db.replace_child_for_events: delete every row whose ev_id is among the
scope keys, then append the whole batch.  No-op when the batch or the
scope key list is empty; creates the table when it does not exist. -/
def replace_child_for_events (df : Table) (ev_ids : List Value) (t : Option Table) : Option Table :=
  if df.isEmpty || ev_ids.isEmpty then t
  else
    match t with
    | some rows => some (rows.filter (fun r => !(evScopeMember ev_ids r)) ++ df)
    | none => some df

/-- The _meta_sync ledger: one (filename, record_count) entry per row.
filename is the PRIMARY KEY, so at most one entry per name can exist. -/
abbrev Ledger := List (String × Nat)

/-- db.log_processed_file: INSERT OR REPLACE INTO _meta_sync.  On a name
conflict SQLite deletes the existing row and inserts the new one. -/
def log_processed_file (filename : String) (record_count : Nat) (ledger : Ledger) : Ledger :=
  ledger.filter (fun p => p.1 != filename) ++ [(filename, record_count)]

/-- Reading back the record_count stored for a given filename. -/
def ledgerLookup (ledger : Ledger) (n : String) : Option Nat :=
  match ledger.find? (fun p => p.1 == n) with
  | some p => some p.2
  | none => none

/-- db.get_processed_files: the filenames already applied. -/
def get_processed_files (ledger : Ledger) : List String :=
  ledger.map (fun p => p.1)

/-- config.TARGET_TABLES. -/
def TARGET_TABLES : List String :=
  ["events", "aircraft", "engines", "narratives", "Events_Sequence", "Findings", "injury"]

/-- config.LOOKUP_TABLES. -/
def LOOKUP_TABLES : List String :=
  ["ct_seqevt", "ct_iaids"]

/-- config.TABLE_PRIMARY_KEYS. -/
def TABLE_PRIMARY_KEYS : List (String × List String) :=
  [("events", ["ev_id"]),
   ("aircraft", ["ev_id", "aircraft_key"]),
   ("engines", ["ev_id", "aircraft_key", "eng_no"]),
   ("narratives", ["ev_id"]),
   ("Events_Sequence", ["ev_id", "aircraft_key", "occurrence_no"]),
   ("Findings", ["ev_id", "aircraft_key", "finding_no"]),
   ("injury", ["ev_id", "aircraft_key", "injury_desc"])]

/-- config.TABLE_PRIMARY_KEYS.get(t, dflt). -/
def tablePrimaryKeysGet (t : String) (dflt : List String) : List String :=
  match TABLE_PRIMARY_KEYS.find? (fun p => p.1 == t) with
  | some p => p.2
  | none => dflt

/-- config.LOOKUP_PRIMARY_KEYS. -/
def LOOKUP_PRIMARY_KEYS : List (String × List String) :=
  [("ct_seqevt", ["code"]),
   ("ct_iaids", ["ct_name", "code_iaids"])]

/-- config.LOOKUP_PRIMARY_KEYS.get(t, []). -/
def lookupPrimaryKeysGet (t : String) : List String :=
  match LOOKUP_PRIMARY_KEYS.find? (fun p => p.1 == t) with
  | some p => p.2
  | none => []

/-- The SQLite database: the named data tables plus the _meta_sync ledger. -/
structure Store where
  tables : List (String × Table)
  ledger : Ledger
deriving DecidableEq, Repr

/-- Contents of a named table; none when the table does not exist
(db._table_exists returning False). -/
def storeTable (s : Store) (n : String) : Option Table :=
  match s.tables.find? (fun p => p.1 == n) with
  | some p => some p.2
  | none => none

/-- Write a table under a name (creating or overwriting it). -/
def setTable (s : Store) (n : String) (t : Table) : Store :=
  { s with tables := s.tables.filter (fun p => p.1 != n) ++ [(n, t)] }

/-- Run one of the db.py merge helpers against one named table of the
store; each helper call in the Python source ends in conn.commit(), so
each application is immediately durable. -/
def storeApply (s : Store) (n : String) (f : Option Table → Option Table) : Store :=
  match f (storeTable s n) with
  | some t => setTable s n t
  | none => s

/-- Result of mdb_adapter.export_table for one logical table of one
archive: the table may be absent from the MDB, export may raise, or it
yields a (possibly empty) batch of rows. -/
inductive ExtractResult where
  | absent : ExtractResult
  | failed : ExtractResult
  | batch : Table → ExtractResult
deriving DecidableEq, Repr

/-- An archive, seen through extraction: what each logical table yields. -/
abbrev Archive := String → ExtractResult

/-- Helper for dedupFirst: drop values seen already, keep the rest. -/
def dedupFirstAux (seen : List Value) : List Value → List Value
  | [] => []
  | v :: vs =>
    if seen.contains v then dedupFirstAux seen vs
    else v :: dedupFirstAux (v :: seen) vs

/-- pandas Series.unique: distinct values, first occurrence kept. -/
def dedupFirst (l : List Value) : List Value :=
  dedupFirstAux [] l

/-- orchestrator._apply_update_file: the scope key set
df["ev_id"].dropna().unique().tolist() of the events batch. -/
def eventIds (df : Table) : List Value :=
  dedupFirst ((df.map (fun r => rowGet r "ev_id")).filter (fun v => v != Value.nullV))

/-- The Scope Key Set an archive yields: empty when the events table is
absent, fails to extract, or its batch is empty. -/
def scopeKeySet (arch : Archive) : List Value :=
  match arch "events" with
  | ExtractResult.batch df => if df.isEmpty then [] else eventIds df
  | _ => []

/-- The events phase of orchestrator._apply_update_file: upsert the events
batch by ev_id and compute the scope key set.  An extraction failure
aborts with the store as written so far. -/
def applyEventsStep (arch : Archive) (s : Store) : Except Store (Store × List Value × Nat) :=
  match arch "events" with
  | ExtractResult.absent => Except.ok (s, [], 0)
  | ExtractResult.failed => Except.error s
  | ExtractResult.batch df =>
    if df.isEmpty then Except.ok (s, [], 0)
    else Except.ok
      (storeApply s "events" (upsert_dataframe df (tablePrimaryKeysGet "events" [])),
       eventIds df, df.length)

/-- One child table of orchestrator._apply_update_file: skip when absent
or empty; replace-for-ev_ids when a scope key set exists; otherwise fall
back to a primary-key upsert with the declared key of the table. -/
def applyChildTable (arch : Archive) (evIds : List Value) (t : String) (acc : Store × Nat) :
    Except Store (Store × Nat) :=
  match arch t with
  | ExtractResult.absent => Except.ok acc
  | ExtractResult.failed => Except.error acc.1
  | ExtractResult.batch df =>
    if df.isEmpty then Except.ok acc
    else if evIds.isEmpty then
      Except.ok (storeApply acc.1 t (upsert_dataframe df (tablePrimaryKeysGet t ["ev_id"])),
                 acc.2 + df.length)
    else
      Except.ok (storeApply acc.1 t (replace_child_for_events df evIds), acc.2 + df.length)

/-- One lookup table of orchestrator._apply_update_file: key-level upsert
when a lookup key is configured, full replace otherwise. -/
def applyLookupTable (arch : Archive) (t : String) (acc : Store × Nat) :
    Except Store (Store × Nat) :=
  match arch t with
  | ExtractResult.absent => Except.ok acc
  | ExtractResult.failed => Except.error acc.1
  | ExtractResult.batch df =>
    if df.isEmpty then Except.ok acc
    else if (lookupPrimaryKeysGet t).isEmpty then
      Except.ok (storeApply acc.1 t (replace_dataframe df), acc.2 + df.length)
    else
      Except.ok (storeApply acc.1 t (upsert_dataframe df (lookupPrimaryKeysGet t)), acc.2 + df.length)

/-- Sequential application of one per-table step to a list of tables,
stopping at the first failure with the store as committed so far. -/
def runTables (step : String → Store × Nat → Except Store (Store × Nat)) :
    List String → Store × Nat → Except Store (Store × Nat)
  | [], acc => Except.ok acc
  | t :: ts, acc =>
    match step t acc with
    | Except.error e => Except.error e
    | Except.ok acc2 => runTables step ts acc2

/-- The child tables: every TARGET_TABLE except events. -/
def childTables : List String :=
  TARGET_TABLES.filter (fun t => t != "events")

/-- orchestrator._apply_update_file: events, then child tables, then
lookup tables, then the ledger entry.  Each table merge commits on its
own (there is no enclosing transaction in the source); a failure returns
the store with every previously committed table write still in place and
the ledger untouched. -/
def applyUpdateFile (arch : Archive) (filename : String) (s : Store) : Except Store Store :=
  match applyEventsStep arch s with
  | Except.error e => Except.error e
  | Except.ok (s1, evIds, n1) =>
    match runTables (applyChildTable arch evIds) childTables (s1, n1) with
    | Except.error e => Except.error e
    | Except.ok (s2, n2) =>
      match runTables (applyLookupTable arch) LOOKUP_TABLES (s2, n2) with
      | Except.error e => Except.error e
      | Except.ok (s3, n3) =>
        Except.ok { s3 with ledger := log_processed_file filename n3 s3.ledger }

/-- An ASCII letter, the character class of the update-file pattern. -/
def isAsciiLetter (c : Char) : Bool :=
  c.isUpper || c.isLower

/-- Does a character list begin with ".zip", case-insensitively? -/
def zipSuffixAt (cs : List Char) : Bool :=
  match cs with
  | d :: z :: i :: p :: _ =>
    d == '.' && (z == 'z' || z == 'Z') && (i == 'i' || i == 'I') && (p == 'p' || p == 'P')
  | _ => false

/-- downloader._UPDATE_PATTERN matched with re.match: the filename begins
(case-insensitively) with up, two digits, three letters, an optional pair
of digits, then ".zip"; re.match does not anchor the end, so trailing
characters are allowed.  The optional greedy group is equivalent to the
disjunction of the two alternatives below. -/
def isUpdateFile (f : String) : Bool :=
  match f.data with
  | u :: p :: d1 :: d2 :: a1 :: a2 :: a3 :: rest =>
    (u == 'u' || u == 'U') && (p == 'p' || p == 'P') &&
    d1.isDigit && d2.isDigit &&
    isAsciiLetter a1 && isAsciiLetter a2 && isAsciiLetter a3 &&
    (zipSuffixAt rest ||
      (match rest with
       | e1 :: e2 :: rest2 => e1.isDigit && e2.isDigit && zipSuffixAt rest2
       | _ => false))
  | _ => false

/-- downloader.get_update_files: keep only incremental update archives. -/
def get_update_files (available : List String) : List String :=
  available.filter isUpdateFile

/-- orchestrator.update steps 1 and 2: filter the discovered names to the
update pattern, drop the already-ledgered ones, and sort the remainder
lexicographically (Python sorted on str). -/
def newUpdateFiles (available : List String) (processed : List String) : List String :=
  List.insertionSort (fun a b => a ≤ b)
    ((get_update_files available).filter (fun f => !(processed.contains f)))

/-- orchestrator.update step 3: apply each new file in order; an exception
from one application aborts the run immediately (the loop re-raises), with
everything committed so far still in the database. -/
def applyLoop (archOf : String → Archive) : List String → Store → Except (Store × String) Store
  | [], s => Except.ok s
  | f :: fs, s =>
    match applyUpdateFile (archOf f) f s with
    | Except.error e => Except.error (e, f)
    | Except.ok s2 => applyLoop archOf fs s2

/-- orchestrator.update: discover, diff against the ledger, sort, apply in
order.  archOf gives the extraction view of each named archive. -/
def updateRun (archOf : String → Archive) (available : List String) (s : Store) :
    Except (Store × String) Store :=
  applyLoop archOf (newUpdateFiles available (get_processed_files s.ledger)) s

/-- A database file that was just created: no data tables, empty ledger. -/
def emptyStore : Store :=
  { tables := [], ledger := [] }

/-- The table-loading loops of orchestrator.seed (steps 4 and 5): each
available table is loaded with replace_dataframe; a table absent from the
MDB is skipped; an export failure raises, ending the process with a
non-zero status. -/
def seedTables (arch : Archive) : List String → Store × Nat → Except Nat (Store × Nat)
  | [], acc => Except.ok acc
  | t :: ts, acc =>
    match arch t with
    | ExtractResult.absent => seedTables arch ts acc
    | ExtractResult.failed => Except.error 1
    | ExtractResult.batch df =>
      seedTables arch ts (storeApply acc.1 t (replace_dataframe df), acc.2 + df.length)

/-- orchestrator.seed after the existence check: load every target and
lookup table from avall.zip into a fresh database, then record avall.zip
in the ledger with the total row count. -/
def seedLoad (arch : Archive) : Except Nat Store :=
  match seedTables arch TARGET_TABLES (emptyStore, 0) with
  | Except.error e => Except.error e
  | Except.ok acc1 =>
    match seedTables arch LOOKUP_TABLES acc1 with
    | Except.error e => Except.error e
    | Except.ok acc2 =>
      Except.ok { acc2.1 with ledger := log_processed_file "avall.zip" acc2.2 acc2.1.ledger }

/-- orchestrator.seed: when the database file already exists, exit with
status 1 unless force is given; with force the file is unlinked before
any download or load begins, so seeding always starts from emptyStore. -/
def seed (existing : Option Store) (force : Bool) (arch : Archive) : Except Nat Store :=
  match existing with
  | some _ => if force then seedLoad arch else Except.error 1
  | none => seedLoad arch

/-! ### Basic lemmas about the store and the ledger -/

lemma storeApply_ledger (s : Store) (n : String) (f : Option Table → Option Table) :
    (storeApply s n f).ledger = s.ledger := by
  cases h : f (storeTable s n) with
  | none => simp [storeApply, h]
  | some t => simp [storeApply, h, setTable]

lemma find?_beq_of_filter_bne {α : Type} (l : List (String × α)) (n : String) :
    (l.filter (fun p => p.1 != n)).find? (fun p => p.1 == n) = none := by
  rw [List.find?_eq_none]
  intro x hx
  rw [List.mem_filter] at hx
  simpa using hx.2

lemma find?_filter_of_imp {α : Type} (l : List α) (p q : α → Bool)
    (h : ∀ a, q a = true → p a = true) :
    (l.filter p).find? q = l.find? q := by
  induction l with
  | nil => rfl
  | cons a l ih =>
    by_cases hq : q a
    · have hp : p a := h a hq
      rw [List.filter_cons_of_pos hp, List.find?_cons_of_pos _ hq, List.find?_cons_of_pos _ hq]
    · by_cases hp : p a
      · rw [List.filter_cons_of_pos hp, List.find?_cons_of_neg _ (by simpa using hq),
          List.find?_cons_of_neg _ (by simpa using hq), ih]
      · rw [List.filter_cons_of_neg (by simpa using hp),
          List.find?_cons_of_neg _ (by simpa using hq), ih]

lemma storeTable_setTable_self (s : Store) (n : String) (t : Table) :
    storeTable (setTable s n t) n = some t := by
  unfold storeTable setTable
  simp only [List.find?_append, find?_beq_of_filter_bne, Option.none_or]
  simp [List.find?]

lemma storeTable_setTable_other (s : Store) (n m : String) (t : Table) (h : m ≠ n) :
    storeTable (setTable s n t) m = storeTable s m := by
  unfold storeTable setTable
  simp only [List.find?_append]
  have himp : ∀ a : String × Table, ((fun p => p.1 == m) a) = true →
      ((fun p => p.1 != n) a) = true := by
    intro a ha
    have : a.1 = m := by simpa using ha
    simp [this, h]
  rw [find?_filter_of_imp s.tables (fun p => p.1 != n) (fun p => p.1 == m) himp]
  have hnm : (n == m) = false := by
    simp only [beq_eq_false_iff_ne]
    exact fun hc => h hc.symm
  simp [List.find?, hnm]

lemma storeApply_self (s : Store) (n : String) (f : Option Table → Option Table) :
    storeTable (storeApply s n f) n =
      match f (storeTable s n) with
      | some t => some t
      | none => storeTable s n := by
  cases h : f (storeTable s n) with
  | none => simp [storeApply, h]
  | some t => simp [storeApply, h, storeTable_setTable_self]

lemma storeApply_other (s : Store) (n m : String) (f : Option Table → Option Table)
    (h : m ≠ n) :
    storeTable (storeApply s n f) m = storeTable s m := by
  cases hf : f (storeTable s n) with
  | none => simp [storeApply, hf]
  | some t => simp [storeApply, hf, storeTable_setTable_other _ _ _ _ h]

/-! ### Counting helpers -/

lemma count_filter_neg {α : Type} [BEq α] [LawfulBEq α] {p : α → Bool} {a : α}
    (h : p a = false) (l : List α) : (l.filter p).count a = 0 := by
  induction l with
  | nil => simp
  | cons b l ih =>
    by_cases hp : p b
    · rw [List.filter_cons_of_pos hp, List.count_cons, ih]
      have hba : (b == a) = false := by
        rw [beq_eq_false_iff_ne]
        intro hc
        rw [hc, h] at hp
        exact Bool.noConfusion hp
      simp [hba]
    · rw [List.filter_cons_of_neg (by simpa using hp)]
      exact ih

/-! ### C7 -/

/-- C7 (confirmed): empty batches are no-ops.  FULL_REPLACE
(replace_dataframe) and KEYED_UPSERT (upsert_dataframe) applied to an
empty batch leave any table state, existing or absent, unchanged. -/
theorem empty_batch_is_noop (t : Option Table) (ks : List String) :
    replace_dataframe [] t = t ∧ upsert_dataframe [] ks t = t :=
  ⟨rfl, rfl⟩

/-! ### C10 -/

/-- C10 (confirmed): when the target table does not exist,
upsert_dataframe with a non-empty batch succeeds (the temp table is
renamed into place) and the new table holds exactly the batch rows,
whatever the key columns are. -/
theorem upsert_creates_missing_table (df : Table) (pk : List String) (h : df ≠ []) :
    upsert_dataframe df pk none = some df := by
  cases df with
  | nil => exact absurd rfl h
  | cons r rs => rfl

/-- Witness for C10 at a concrete batch and key list. -/
theorem upsert_creates_missing_table_witness :
    ([[("code", Value.intV 7)]] : Table) ≠ [] ∧
    upsert_dataframe [[("code", Value.intV 7)]] ["code"] none = some [[("code", Value.intV 7)]] :=
  ⟨by decide, upsert_creates_missing_table _ _ (by decide)⟩

/-! ### C2 -/

lemma log_processed_file_twice (ledger : Ledger) (n : String) (c1 c2 : Nat) :
    log_processed_file n c2 (log_processed_file n c1 ledger) =
      ledger.filter (fun p => p.1 != n) ++ [(n, c2)] := by
  unfold log_processed_file
  rw [List.filter_append, List.filter_filter]
  simp [Bool.and_self]

/-- C2 counterexample: log_processed_file is INSERT OR REPLACE, not an
append-only insert.  A second call for the same archive name does not
fail with DuplicateArchiveError (the function returns normally) and it
overwrites the stored record count: after recording name with count 3 and
then again with count 5, the ledger reads back 5, not the original 3. -/
theorem log_processed_file_second_call_replaces_entry :
    ledgerLookup (log_processed_file "up01JAN25.zip" 3 []) "up01JAN25.zip" = some 3 ∧
    log_processed_file "up01JAN25.zip" 5 (log_processed_file "up01JAN25.zip" 3 []) =
      [("up01JAN25.zip", 5)] ∧
    ledgerLookup
        (log_processed_file "up01JAN25.zip" 5 (log_processed_file "up01JAN25.zip" 3 []))
        "up01JAN25.zip" = some 5 :=
  ⟨rfl, rfl, rfl⟩

/-- C2 (corrected): a second recordApplication for the same archive name
succeeds and replaces the existing entry (INSERT OR REPLACE): afterwards
the ledger holds exactly one entry for that name, carrying the newer row
count, while entries for every other name are untouched.  The ledger
never holds two entries for one name, but entries can be overwritten, so
it is not append-only. -/
theorem log_processed_file_upsert_semantics (ledger : Ledger) (n m : String)
    (c1 c2 : Nat) (h : m ≠ n) :
    ledgerLookup (log_processed_file n c2 (log_processed_file n c1 ledger)) n = some c2 ∧
    (log_processed_file n c2 (log_processed_file n c1 ledger)).filter
        (fun p => p.1 == n) = [(n, c2)] ∧
    (log_processed_file n c2 (log_processed_file n c1 ledger)).filter
        (fun p => p.1 == m) = ledger.filter (fun p => p.1 == m) := by
  rw [log_processed_file_twice]
  refine ⟨?_, ?_, ?_⟩
  · unfold ledgerLookup
    rw [List.find?_append, find?_beq_of_filter_bne]
    simp [List.find?]
  · rw [List.filter_append, List.filter_filter]
    have hconj : ∀ p : String × Nat, ((p.1 == n) && (p.1 != n)) = false := by
      intro p
      cases hp : p.1 == n <;> simp [bne, hp]
    rw [List.filter_congr (fun a _ => hconj a)]
    simp
  · rw [List.filter_append, List.filter_filter]
    have hnm : (n == m) = false := by
      simp only [beq_eq_false_iff_ne]
      exact fun hc => h hc.symm
    have hconj : ∀ p : String × Nat, ((p.1 == m) && (p.1 != n)) = (p.1 == m) := by
      intro p
      cases hp : p.1 == m
      · simp
      · have : p.1 = m := by simpa using hp
        simp [bne, this, beq_eq_false_iff_ne, h]
    rw [List.filter_congr (fun a _ => hconj a)]
    simp [hnm]

/-- Witness for C2-as-corrected at concrete names and counts. -/
theorem log_processed_file_upsert_semantics_witness :
    ("other.zip" : String) ≠ "up01JAN25.zip" ∧
    (ledgerLookup
        (log_processed_file "up01JAN25.zip" 5
          (log_processed_file "up01JAN25.zip" 3 [("other.zip", 9)]))
        "up01JAN25.zip" = some 5 ∧
      (log_processed_file "up01JAN25.zip" 5
          (log_processed_file "up01JAN25.zip" 3 [("other.zip", 9)])).filter
          (fun p => p.1 == "up01JAN25.zip") = [("up01JAN25.zip", 5)] ∧
      (log_processed_file "up01JAN25.zip" 5
          (log_processed_file "up01JAN25.zip" 3 [("other.zip", 9)])).filter
          (fun p => p.1 == "other.zip") =
        ([("other.zip", 9)] : Ledger).filter (fun p => p.1 == "other.zip")) :=
  ⟨by decide, log_processed_file_upsert_semantics [("other.zip", 9)] "up01JAN25.zip"
    "other.zip" 3 5 (by decide)⟩

/-! ### C4 -/

/-- C4 (confirmed): KEYED_UPSERT replaces exactly the rows whose
key-column tuple matches the batch and preserves all others.  For an
existing table and a non-empty batch, the multiplicity of any row r in
the result equals the batch multiplicity of r, plus the old multiplicity
of r when the key tuple of r matches no batch row (SQL comparison, as the
DELETE of the source performs it).  So rows with matching keys are
replaced by the batch rows and rows with unmatched keys are untouched. -/
theorem keyed_upsert_preserves_untouched_keys (rows df : Table) (pk : List String)
    (hpk : pk ≠ []) (hdf : df ≠ []) (r : Row) :
    ((upsert_dataframe df pk (some rows)).getD []).count r =
      (if matchesBatch pk df r then 0 else rows.count r) + df.count r := by
  have hempty : df.isEmpty = false := by simpa using hdf
  simp only [upsert_dataframe, hempty, Bool.false_eq_true, if_false, Option.getD_some]
  rw [List.count_append]
  congr 1
  cases hm : matchesBatch pk df r
  · simp only [Bool.false_eq_true, if_false]
    exact List.count_filter (by simp [hm])
  · simp only [if_true]
    exact count_filter_neg (by simp [hm]) rows

/-- Witness for C4: a table with rows for keys X and Y, a batch touching
only X; the row for Y keeps multiplicity 1 in the result. -/
theorem keyed_upsert_preserves_untouched_keys_witness :
    (["k"] : List String) ≠ [] ∧
    ([[("k", Value.intV 1), ("v", Value.intV 99)]] : Table) ≠ [] ∧
    ((upsert_dataframe [[("k", Value.intV 1), ("v", Value.intV 99)]] ["k"]
          (some [[("k", Value.intV 1), ("v", Value.intV 10)],
                 [("k", Value.intV 2), ("v", Value.intV 20)]])).getD []).count
        [("k", Value.intV 2), ("v", Value.intV 20)] =
      (if matchesBatch ["k"] [[("k", Value.intV 1), ("v", Value.intV 99)]]
            [("k", Value.intV 2), ("v", Value.intV 20)] then 0
        else ([[("k", Value.intV 1), ("v", Value.intV 10)],
               [("k", Value.intV 2), ("v", Value.intV 20)]] : Table).count
            [("k", Value.intV 2), ("v", Value.intV 20)]) +
        ([[("k", Value.intV 1), ("v", Value.intV 99)]] : Table).count
          [("k", Value.intV 2), ("v", Value.intV 20)] :=
  ⟨by decide, by decide,
    keyed_upsert_preserves_untouched_keys
      [[("k", Value.intV 1), ("v", Value.intV 10)],
       [("k", Value.intV 2), ("v", Value.intV 20)]]
      [[("k", Value.intV 1), ("v", Value.intV 99)]] ["k"]
      (by decide) (by decide) [("k", Value.intV 2), ("v", Value.intV 20)]⟩

/-! ### C3 -/

/-- C3 (confirmed): SCOPED_REPLACE shrink/grow.  When two archives in
order supply child batches and each carries the parent key P in its scope
key set (the ev_ids derived from its events batch), the child-table rows
for P after both applications are exactly the rows the second batch
supplies for P: old rows for a scoped parent are wiped in full, never
mixed with the new ones. -/
theorem scoped_replace_shrink_grow (t0 : Option Table) (df1 df2 : Table)
    (ev1 ev2 : List Value) (P : Value)
    (h1 : P ∈ ev1) (h2 : P ∈ ev2) (hd1 : df1 ≠ []) (hd2 : df2 ≠ []) :
    ((replace_child_for_events df2 ev2
          (replace_child_for_events df1 ev1 t0)).getD []).filter
        (fun r => sqlEq (rowGet r "ev_id") P) =
      df2.filter (fun r => sqlEq (rowGet r "ev_id") P) := by
  have hev2 : ev2.isEmpty = false := by
    simpa using List.ne_nil_of_mem h2
  have hdf2 : df2.isEmpty = false := by simpa using hd2
  have hguard : (df2.isEmpty || ev2.isEmpty) = false := by rw [hdf2, hev2]; rfl
  cases ht1 : replace_child_for_events df1 ev1 t0 with
  | none =>
    simp only [replace_child_for_events, hguard, Bool.false_eq_true, if_false,
      Option.getD_some]
  | some tbl1 =>
    simp only [replace_child_for_events, hguard, Bool.false_eq_true, if_false,
      Option.getD_some]
    rw [List.filter_append]
    have hnil : (tbl1.filter (fun r => !(evScopeMember ev2 r))).filter
        (fun r => sqlEq (rowGet r "ev_id") P) = [] := by
      rw [List.filter_eq_nil_iff]
      intro r hr hP
      rw [List.mem_filter] at hr
      have hscope : evScopeMember ev2 r = true := by
        unfold evScopeMember
        rw [List.any_eq_true]
        exact ⟨P, h2, hP⟩
      rw [hscope] at hr
      exact Bool.noConfusion hr.2
    rw [hnil, List.nil_append]

/-- Witness for C3: parent EVP has children a, b, c from archive 1;
archive 2 supplies children a, d; afterwards the rows for EVP are
exactly a and d. -/
theorem scoped_replace_shrink_grow_witness :
    (Value.textV "EVP" ∈ [Value.textV "EVP"]) ∧
    (Value.textV "EVP" ∈ [Value.textV "EVP"]) ∧
    ([[("ev_id", Value.textV "EVP"), ("c", Value.intV 1)],
      [("ev_id", Value.textV "EVP"), ("c", Value.intV 2)],
      [("ev_id", Value.textV "EVP"), ("c", Value.intV 3)]] : Table) ≠ [] ∧
    ([[("ev_id", Value.textV "EVP"), ("c", Value.intV 1)],
      [("ev_id", Value.textV "EVP"), ("c", Value.intV 4)]] : Table) ≠ [] ∧
    ((replace_child_for_events
          [[("ev_id", Value.textV "EVP"), ("c", Value.intV 1)],
           [("ev_id", Value.textV "EVP"), ("c", Value.intV 4)]]
          [Value.textV "EVP"]
          (replace_child_for_events
            [[("ev_id", Value.textV "EVP"), ("c", Value.intV 1)],
             [("ev_id", Value.textV "EVP"), ("c", Value.intV 2)],
             [("ev_id", Value.textV "EVP"), ("c", Value.intV 3)]]
            [Value.textV "EVP"] none)).getD []).filter
        (fun r => sqlEq (rowGet r "ev_id") (Value.textV "EVP")) =
      ([[("ev_id", Value.textV "EVP"), ("c", Value.intV 1)],
        [("ev_id", Value.textV "EVP"), ("c", Value.intV 4)]] : Table).filter
        (fun r => sqlEq (rowGet r "ev_id") (Value.textV "EVP")) :=
  ⟨by decide, by decide, by decide, by decide,
    scoped_replace_shrink_grow none
      [[("ev_id", Value.textV "EVP"), ("c", Value.intV 1)],
       [("ev_id", Value.textV "EVP"), ("c", Value.intV 2)],
       [("ev_id", Value.textV "EVP"), ("c", Value.intV 3)]]
      [[("ev_id", Value.textV "EVP"), ("c", Value.intV 1)],
       [("ev_id", Value.textV "EVP"), ("c", Value.intV 4)]]
      [Value.textV "EVP"] [Value.textV "EVP"] (Value.textV "EVP")
      (by decide) (by decide) (by decide) (by decide)⟩

/-! ### C5 -/

/-- An events row used by the C5 counterexample archive. -/
def evRowE1 : Row := [("ev_id", Value.textV "E1")]

/-- An aircraft row whose ev_id (EVQ) is NOT in the events batch of the
same archive, so it lies outside the derived scope key set. -/
def acRowEVQ : Row := [("ev_id", Value.textV "EVQ"), ("aircraft_key", Value.intV 1)]

/-- The C5 counterexample archive: an events batch for E1 and an aircraft
batch whose single row belongs to a different parent EVQ. -/
def dupArchive : Archive := fun t =>
  if t == "events" then ExtractResult.batch [evRowE1]
  else if t == "aircraft" then ExtractResult.batch [acRowEVQ]
  else ExtractResult.absent

/-- C5 counterexample: applying the same archive twice (bypassing the
ledger check) is NOT observably the same as applying it once.  The
aircraft batch row has ev_id EVQ while the scope key set from the events
batch is {E1}; the SCOPED_REPLACE delete therefore never removes the row
appended by the first application, and the second application appends it
again, duplicating it. -/
theorem apply_twice_duplicates_out_of_scope_child_rows :
    applyUpdateFile dupArchive "up01JAN25.zip" emptyStore =
      Except.ok
        { tables := [("events", [evRowE1]), ("aircraft", [acRowEVQ])],
          ledger := [("up01JAN25.zip", 2)] } ∧
    applyUpdateFile dupArchive "up01JAN25.zip"
        { tables := [("events", [evRowE1]), ("aircraft", [acRowEVQ])],
          ledger := [("up01JAN25.zip", 2)] } =
      Except.ok
        { tables := [("events", [evRowE1]), ("aircraft", [acRowEVQ, acRowEVQ])],
          ledger := [("up01JAN25.zip", 2)] } ∧
    ({ tables := [("events", [evRowE1]), ("aircraft", [acRowEVQ, acRowEVQ])],
       ledger := [("up01JAN25.zip", 2)] } : Store) ≠
      { tables := [("events", [evRowE1]), ("aircraft", [acRowEVQ])],
        ledger := [("up01JAN25.zip", 2)] } :=
  ⟨rfl, rfl, by decide⟩

/-- C5 (corrected): idempotence of application holds strategy by strategy
under the scoping conditions the merge algorithms rely on.  FULL_REPLACE
is always idempotent.  KEYED_UPSERT is idempotent whenever every batch
row matches its own key tuple (that is, no batch row carries NULL in a
key column; SQL comparison makes such a row match nothing, not even
itself).  SCOPED_REPLACE is idempotent whenever the ev_id of every batch
row is a member of the scope key set — the situation the orchestrator
produces when child batches only mention parents present in the events
batch; a batch row outside the scope key set is appended twice. -/
theorem merge_strategies_idempotent_under_scope_conditions
    (df : Table) (pk : List String) (ev : List Value) (t : Option Table)
    (hself : ∀ r ∈ df, keyTupleMatches pk r r = true)
    (hscope : ∀ r ∈ df, evScopeMember ev r = true) :
    replace_dataframe df (replace_dataframe df t) = replace_dataframe df t ∧
    upsert_dataframe df pk (upsert_dataframe df pk t) = upsert_dataframe df pk t ∧
    replace_child_for_events df ev (replace_child_for_events df ev t) =
      replace_child_for_events df ev t := by
  refine ⟨?_, ?_, ?_⟩
  · by_cases hdf : df.isEmpty <;> simp [replace_dataframe, hdf]
  · by_cases hdf : df.isEmpty
    · simp [upsert_dataframe, hdf]
    · have hdf_filter : df.filter (fun r => !(matchesBatch pk df r)) = [] := by
        rw [List.filter_eq_nil_iff]
        intro r hr hcon
        have hm : matchesBatch pk df r = true := by
          unfold matchesBatch
          rw [List.any_eq_true]
          exact ⟨r, hr, hself r hr⟩
        rw [hm] at hcon
        exact Bool.noConfusion hcon
      have hidem : ∀ L : Table,
          (L.filter (fun r => !(matchesBatch pk df r))).filter
            (fun r => !(matchesBatch pk df r)) =
          L.filter (fun r => !(matchesBatch pk df r)) := by
        intro L
        rw [List.filter_filter]
        exact List.filter_congr (fun a _ => by cases matchesBatch pk df a <;> simp)
      cases t with
      | none =>
        simp only [upsert_dataframe, hdf, Bool.false_eq_true, if_false]
        rw [hdf_filter]
        simp
      | some rows =>
        simp only [upsert_dataframe, hdf, Bool.false_eq_true, if_false]
        rw [List.filter_append, hdf_filter, hidem]
        simp
  · by_cases hguard : (df.isEmpty || ev.isEmpty) = true
    · simp [replace_child_for_events, hguard]
    · have hguard2 : (df.isEmpty || ev.isEmpty) = false := by
        simpa using hguard
      have hdf_filter : df.filter (fun r => !(evScopeMember ev r)) = [] := by
        rw [List.filter_eq_nil_iff]
        intro r hr hcon
        rw [hscope r hr] at hcon
        exact Bool.noConfusion hcon
      have hidem : ∀ L : Table,
          (L.filter (fun r => !(evScopeMember ev r))).filter
            (fun r => !(evScopeMember ev r)) =
          L.filter (fun r => !(evScopeMember ev r)) := by
        intro L
        rw [List.filter_filter]
        exact List.filter_congr (fun a _ => by cases evScopeMember ev a <;> simp)
      cases t with
      | none =>
        simp only [replace_child_for_events, hguard2, Bool.false_eq_true, if_false]
        rw [hdf_filter]
        simp
      | some rows =>
        simp only [replace_child_for_events, hguard2, Bool.false_eq_true, if_false]
        rw [List.filter_append, hdf_filter, hidem]
        simp

/-- Witness for C5-as-corrected: an in-scope, NULL-free batch applied
twice by each strategy gives what one application gives. -/
theorem merge_strategies_idempotent_witness :
    (∀ r ∈ ([[("ev_id", Value.textV "E1"), ("v", Value.intV 1)]] : Table),
        keyTupleMatches ["ev_id"] r r = true) ∧
    (∀ r ∈ ([[("ev_id", Value.textV "E1"), ("v", Value.intV 1)]] : Table),
        evScopeMember [Value.textV "E1"] r = true) ∧
    (replace_dataframe [[("ev_id", Value.textV "E1"), ("v", Value.intV 1)]]
          (replace_dataframe [[("ev_id", Value.textV "E1"), ("v", Value.intV 1)]]
            (some [])) =
        replace_dataframe [[("ev_id", Value.textV "E1"), ("v", Value.intV 1)]] (some []) ∧
      upsert_dataframe [[("ev_id", Value.textV "E1"), ("v", Value.intV 1)]] ["ev_id"]
          (upsert_dataframe [[("ev_id", Value.textV "E1"), ("v", Value.intV 1)]]
            ["ev_id"] (some [])) =
        upsert_dataframe [[("ev_id", Value.textV "E1"), ("v", Value.intV 1)]]
          ["ev_id"] (some []) ∧
      replace_child_for_events [[("ev_id", Value.textV "E1"), ("v", Value.intV 1)]]
          [Value.textV "E1"]
          (replace_child_for_events [[("ev_id", Value.textV "E1"), ("v", Value.intV 1)]]
            [Value.textV "E1"] (some [])) =
        replace_child_for_events [[("ev_id", Value.textV "E1"), ("v", Value.intV 1)]]
          [Value.textV "E1"] (some [])) :=
  ⟨by decide, by decide,
    merge_strategies_idempotent_under_scope_conditions
      [[("ev_id", Value.textV "E1"), ("v", Value.intV 1)]] ["ev_id"]
      [Value.textV "E1"] (some []) (by decide) (by decide)⟩

/-! ### C1: ledger behaviour of one archive application -/

lemma applyEventsStep_ok_parts {arch : Archive} {s s1 : Store} {ids : List Value} {n : Nat}
    (h : applyEventsStep arch s = Except.ok (s1, ids, n)) :
    s1.ledger = s.ledger ∧ ids = scopeKeySet arch := by
  unfold applyEventsStep at h
  split at h
  · simp only [Except.ok.injEq, Prod.mk.injEq] at h
    rename_i heq
    obtain ⟨h1, h2, h3⟩ := h
    exact ⟨by rw [← h1], by rw [← h2]; simp [scopeKeySet, heq]⟩
  · exact Except.noConfusion h
  · split at h
    · simp only [Except.ok.injEq, Prod.mk.injEq] at h
      rename_i df heq hdf
      obtain ⟨h1, h2, h3⟩ := h
      exact ⟨by rw [← h1], by rw [← h2]; simp [scopeKeySet, heq, hdf]⟩
    · simp only [Except.ok.injEq, Prod.mk.injEq] at h
      rename_i df heq hdf
      obtain ⟨h1, h2, h3⟩ := h
      refine ⟨?_, ?_⟩
      · rw [← h1]; exact storeApply_ledger _ _ _
      · rw [← h2]
        simp only [scopeKeySet, heq]
        rw [if_neg hdf]

lemma applyEventsStep_error_ledger {arch : Archive} {s e : Store}
    (h : applyEventsStep arch s = Except.error e) : e.ledger = s.ledger := by
  unfold applyEventsStep at h
  split at h
  · exact Except.noConfusion h
  · simp only [Except.error.injEq] at h
    rw [← h]
  · split at h
    · exact Except.noConfusion h
    · exact Except.noConfusion h

lemma applyChildTable_ok_ledger {arch : Archive} {ev : List Value} {t : String}
    {acc acc2 : Store × Nat} (h : applyChildTable arch ev t acc = Except.ok acc2) :
    acc2.1.ledger = acc.1.ledger := by
  unfold applyChildTable at h
  split at h
  · simp only [Except.ok.injEq] at h; rw [← h]
  · exact Except.noConfusion h
  · split at h
    · simp only [Except.ok.injEq] at h; rw [← h]
    · split at h
      · simp only [Except.ok.injEq] at h
        rw [← h]
        exact storeApply_ledger _ _ _
      · simp only [Except.ok.injEq] at h
        rw [← h]
        exact storeApply_ledger _ _ _

lemma applyChildTable_error_ledger {arch : Archive} {ev : List Value} {t : String}
    {acc : Store × Nat} {e : Store} (h : applyChildTable arch ev t acc = Except.error e) :
    e.ledger = acc.1.ledger := by
  unfold applyChildTable at h
  split at h
  · exact Except.noConfusion h
  · simp only [Except.error.injEq] at h; rw [← h]
  · split at h
    · exact Except.noConfusion h
    · split at h
      · exact Except.noConfusion h
      · exact Except.noConfusion h

lemma applyLookupTable_ok_ledger {arch : Archive} {t : String}
    {acc acc2 : Store × Nat} (h : applyLookupTable arch t acc = Except.ok acc2) :
    acc2.1.ledger = acc.1.ledger := by
  unfold applyLookupTable at h
  split at h
  · simp only [Except.ok.injEq] at h; rw [← h]
  · exact Except.noConfusion h
  · split at h
    · simp only [Except.ok.injEq] at h; rw [← h]
    · split at h
      · simp only [Except.ok.injEq] at h
        rw [← h]
        exact storeApply_ledger _ _ _
      · simp only [Except.ok.injEq] at h
        rw [← h]
        exact storeApply_ledger _ _ _

lemma applyLookupTable_error_ledger {arch : Archive} {t : String}
    {acc : Store × Nat} {e : Store} (h : applyLookupTable arch t acc = Except.error e) :
    e.ledger = acc.1.ledger := by
  unfold applyLookupTable at h
  split at h
  · exact Except.noConfusion h
  · simp only [Except.error.injEq] at h; rw [← h]
  · split at h
    · exact Except.noConfusion h
    · split at h
      · exact Except.noConfusion h
      · exact Except.noConfusion h

lemma runTables_ledger_ok {step : String → Store × Nat → Except Store (Store × Nat)}
    (hok : ∀ t acc acc2, step t acc = Except.ok acc2 → acc2.1.ledger = acc.1.ledger) :
    ∀ ts acc acc2, runTables step ts acc = Except.ok acc2 → acc2.1.ledger = acc.1.ledger := by
  intro ts
  induction ts with
  | nil =>
    intro acc acc2 h
    unfold runTables at h
    simp only [Except.ok.injEq] at h
    rw [← h]
  | cons t ts ih =>
    intro acc acc2 h
    unfold runTables at h
    split at h
    · exact Except.noConfusion h
    · rename_i acc1 heq
      rw [ih acc1 acc2 h, hok t acc acc1 heq]

lemma runTables_ledger_error {step : String → Store × Nat → Except Store (Store × Nat)}
    (hok : ∀ t acc acc2, step t acc = Except.ok acc2 → acc2.1.ledger = acc.1.ledger)
    (herr : ∀ t acc e, step t acc = Except.error e → e.ledger = acc.1.ledger) :
    ∀ ts acc e, runTables step ts acc = Except.error e → e.ledger = acc.1.ledger := by
  intro ts
  induction ts with
  | nil =>
    intro acc e h
    unfold runTables at h
    exact Except.noConfusion h
  | cons t ts ih =>
    intro acc e h
    unfold runTables at h
    split at h
    · rename_i e1 heq
      simp only [Except.error.injEq] at h
      rw [← h]
      exact herr t acc e1 heq
    · rename_i acc1 heq
      rw [ih acc1 e h, hok t acc acc1 heq]

lemma applyUpdateFile_error_ledger {arch : Archive} {fn : String} {s e : Store}
    (h : applyUpdateFile arch fn s = Except.error e) : e.ledger = s.ledger := by
  unfold applyUpdateFile at h
  split at h
  · rename_i e1 heq
    simp only [Except.error.injEq] at h
    rw [← h]
    exact applyEventsStep_error_ledger heq
  · rename_i s1 ids n1 heq
    split at h
    · rename_i e1 heq2
      simp only [Except.error.injEq] at h
      rw [← h]
      rw [runTables_ledger_error (fun _ _ _ hh => applyChildTable_ok_ledger hh)
        (fun _ _ _ hh => applyChildTable_error_ledger hh) _ _ _ heq2]
      exact (applyEventsStep_ok_parts heq).1
    · rename_i s2 n2 heq2
      split at h
      · rename_i e1 heq3
        simp only [Except.error.injEq] at h
        rw [← h]
        rw [runTables_ledger_error (fun _ _ _ hh => applyLookupTable_ok_ledger hh)
          (fun _ _ _ hh => applyLookupTable_error_ledger hh) _ _ _ heq3]
        show (s2, n2).1.ledger = s.ledger
        rw [runTables_ledger_ok (fun _ _ _ hh => applyChildTable_ok_ledger hh) _ _ _ heq2]
        exact (applyEventsStep_ok_parts heq).1
      · exact Except.noConfusion h

lemma applyUpdateFile_ok_ledger {arch : Archive} {fn : String} {s s2 : Store}
    (h : applyUpdateFile arch fn s = Except.ok s2) :
    ∃ c, s2.ledger = log_processed_file fn c s.ledger := by
  unfold applyUpdateFile at h
  split at h
  · exact Except.noConfusion h
  · rename_i s1 ids n1 heq
    split at h
    · exact Except.noConfusion h
    · rename_i sc nc heq2
      split at h
      · exact Except.noConfusion h
      · rename_i sl nl heq3
        simp only [Except.ok.injEq] at h
        refine ⟨nl, ?_⟩
        rw [← h]
        show log_processed_file fn nl (sl, nl).1.ledger = log_processed_file fn nl s.ledger
        congr 1
        rw [runTables_ledger_ok (fun _ _ _ hh => applyLookupTable_ok_ledger hh) _ _ _ heq3]
        show (sc, nc).1.ledger = s.ledger
        rw [runTables_ledger_ok (fun _ _ _ hh => applyChildTable_ok_ledger hh) _ _ _ heq2]
        exact (applyEventsStep_ok_parts heq).1

/-- C1 counterexample archive: events and aircraft extract, the engines
table (the third table processed) fails to extract, the rest are absent. -/
def midFailArchive : Archive := fun t =>
  if t == "events" then ExtractResult.batch [[("ev_id", Value.textV "E1"), ("x", Value.intV 1)]]
  else if t == "aircraft" then
    ExtractResult.batch [[("ev_id", Value.textV "E1"), ("aircraft_key", Value.intV 1)]]
  else if t == "engines" then ExtractResult.failed
  else ExtractResult.absent

/-- C1 counterexample: archive application is NOT atomic.  On an archive
whose engines extraction fails after events and aircraft were already
merged, the failure state still contains the events row and the aircraft
row added by this very archive (the store started empty), refuting the
claim that after a failure no table contains any row added by the
archive.  Each db.py helper commits on its own; there is no enclosing
transaction to roll the earlier merges back. -/
theorem apply_update_file_midway_failure_keeps_earlier_writes :
    applyUpdateFile midFailArchive "up01JAN25.zip" emptyStore =
      Except.error
        { tables := [("events", [[("ev_id", Value.textV "E1"), ("x", Value.intV 1)]]),
                     ("aircraft", [[("ev_id", Value.textV "E1"), ("aircraft_key", Value.intV 1)]])],
          ledger := [] } ∧
    storeTable
        { tables := [("events", [[("ev_id", Value.textV "E1"), ("x", Value.intV 1)]]),
                     ("aircraft", [[("ev_id", Value.textV "E1"), ("aircraft_key", Value.intV 1)]])],
          ledger := [] } "events" =
      some [[("ev_id", Value.textV "E1"), ("x", Value.intV 1)]] ∧
    storeTable emptyStore "events" = none :=
  ⟨rfl, rfl, rfl⟩

/-- C1 (corrected): only the ledger half of the atomicity claim holds.
If any extraction step of an archive application fails, the ledger is
left exactly as it was — no entry for the archive is written, so the
archive remains eligible for retry — but table writes committed before
the failing step persist (application is not atomic across tables). -/
theorem applyUpdateFile_failure_writes_no_ledger_entry (arch : Archive) (fn : String)
    (s e : Store) (h : applyUpdateFile arch fn s = Except.error e) :
    e.ledger = s.ledger :=
  applyUpdateFile_error_ledger h

/-- Witness for C1-as-corrected at the concrete mid-failing archive. -/
theorem applyUpdateFile_failure_no_ledger_entry_witness :
    applyUpdateFile midFailArchive "up01JAN25.zip" emptyStore =
      Except.error
        { tables := [("events", [[("ev_id", Value.textV "E1"), ("x", Value.intV 1)]]),
                     ("aircraft", [[("ev_id", Value.textV "E1"), ("aircraft_key", Value.intV 1)]])],
          ledger := [] } ∧
    ({ tables := [("events", [[("ev_id", Value.textV "E1"), ("x", Value.intV 1)]]),
       ("aircraft", [[("ev_id", Value.textV "E1"), ("aircraft_key", Value.intV 1)]])],
       ledger := [] } : Store).ledger = emptyStore.ledger :=
  ⟨rfl,
    applyUpdateFile_failure_writes_no_ledger_entry midFailArchive "up01JAN25.zip"
      emptyStore _ rfl⟩

/-! ### C8: tracking individual tables through one archive application -/

/-- The degraded-mode effect of one child table when the scope key set is
empty: a non-empty batch is applied by KEYED_UPSERT with the declared
primary-key columns of the child table itself; absent tables, failed
extractions and empty batches leave the table as it is. -/
def childFallbackOp (arch : Archive) (t : String) (tab : Option Table) : Option Table :=
  match arch t with
  | ExtractResult.batch df => upsert_dataframe df (tablePrimaryKeysGet t ["ev_id"]) tab
  | _ => tab

lemma upsert_dataframe_ne_none {df : Table} (pk : List String) (tab : Option Table)
    (hdf : df.isEmpty = false) : upsert_dataframe df pk tab ≠ none := by
  unfold upsert_dataframe
  rw [hdf]
  cases tab <;> simp

lemma applyEventsStep_ok_other {arch : Archive} {s s1 : Store} {ids : List Value} {n : Nat}
    (h : applyEventsStep arch s = Except.ok (s1, ids, n))
    {m : String} (hm : m ≠ "events") : storeTable s1 m = storeTable s m := by
  unfold applyEventsStep at h
  split at h
  · simp only [Except.ok.injEq, Prod.mk.injEq] at h
    rw [← h.1]
  · exact Except.noConfusion h
  · split at h
    · simp only [Except.ok.injEq, Prod.mk.injEq] at h
      rw [← h.1]
    · simp only [Except.ok.injEq, Prod.mk.injEq] at h
      rw [← h.1]
      exact storeApply_other _ _ _ _ hm

lemma applyChildTable_ok_other {arch : Archive} {ev : List Value} {t : String}
    {acc acc2 : Store × Nat} (h : applyChildTable arch ev t acc = Except.ok acc2)
    {m : String} (hm : m ≠ t) : storeTable acc2.1 m = storeTable acc.1 m := by
  unfold applyChildTable at h
  split at h
  · simp only [Except.ok.injEq] at h; rw [← h]
  · exact Except.noConfusion h
  · split at h
    · simp only [Except.ok.injEq] at h; rw [← h]
    · split at h
      · simp only [Except.ok.injEq] at h
        rw [← h]
        exact storeApply_other _ _ _ _ hm
      · simp only [Except.ok.injEq] at h
        rw [← h]
        exact storeApply_other _ _ _ _ hm

lemma applyLookupTable_ok_other {arch : Archive} {t : String}
    {acc acc2 : Store × Nat} (h : applyLookupTable arch t acc = Except.ok acc2)
    {m : String} (hm : m ≠ t) : storeTable acc2.1 m = storeTable acc.1 m := by
  unfold applyLookupTable at h
  split at h
  · simp only [Except.ok.injEq] at h; rw [← h]
  · exact Except.noConfusion h
  · split at h
    · simp only [Except.ok.injEq] at h; rw [← h]
    · split at h
      · simp only [Except.ok.injEq] at h
        rw [← h]
        exact storeApply_other _ _ _ _ hm
      · simp only [Except.ok.injEq] at h
        rw [← h]
        exact storeApply_other _ _ _ _ hm

lemma applyChildTable_ok_self_empty_scope {arch : Archive} {t : String}
    {acc acc2 : Store × Nat} (h : applyChildTable arch [] t acc = Except.ok acc2) :
    storeTable acc2.1 t = childFallbackOp arch t (storeTable acc.1 t) := by
  unfold applyChildTable at h
  split at h
  · rename_i heq
    simp only [Except.ok.injEq] at h
    rw [← h]
    simp [childFallbackOp, heq]
  · exact Except.noConfusion h
  · rename_i df heq
    split at h
    · rename_i hdf
      simp only [Except.ok.injEq] at h
      rw [← h]
      simp [childFallbackOp, heq, upsert_dataframe, hdf]
    · rename_i hdf
      split at h
      · simp only [Except.ok.injEq] at h
        rw [← h]
        simp only [childFallbackOp, heq]
        rw [storeApply_self]
        cases hup : upsert_dataframe df (tablePrimaryKeysGet t ["ev_id"]) (storeTable acc.1 t) with
        | none =>
          exact absurd hup (upsert_dataframe_ne_none _ _ (by simpa using hdf))
        | some x => rfl
      · rename_i hcon
        exact absurd rfl hcon

lemma runTables_ok_other {step : String → Store × Nat → Except Store (Store × Nat)}
    (hother : ∀ t acc acc2 m, step t acc = Except.ok acc2 → m ≠ t →
      storeTable acc2.1 m = storeTable acc.1 m) :
    ∀ ts acc acc2 m, runTables step ts acc = Except.ok acc2 → m ∉ ts →
      storeTable acc2.1 m = storeTable acc.1 m := by
  intro ts
  induction ts with
  | nil =>
    intro acc acc2 m h hm
    unfold runTables at h
    simp only [Except.ok.injEq] at h
    rw [← h]
  | cons t ts ih =>
    intro acc acc2 m h hm
    unfold runTables at h
    split at h
    · exact Except.noConfusion h
    · rename_i acc1 heq
      have hmt : m ≠ t := fun hc => hm (hc ▸ List.mem_cons_self t ts)
      rw [ih acc1 acc2 m h (fun hc => hm (List.mem_cons_of_mem t hc)),
        hother t acc acc1 m heq hmt]

lemma runTables_ok_target {step : String → Store × Nat → Except Store (Store × Nat)}
    {F : String → Option Table → Option Table}
    (hother : ∀ t acc acc2 m, step t acc = Except.ok acc2 → m ≠ t →
      storeTable acc2.1 m = storeTable acc.1 m)
    (hself : ∀ t acc acc2, step t acc = Except.ok acc2 →
      storeTable acc2.1 t = F t (storeTable acc.1 t)) :
    ∀ ts acc acc2 t, runTables step ts acc = Except.ok acc2 → ts.Nodup → t ∈ ts →
      storeTable acc2.1 t = F t (storeTable acc.1 t) := by
  intro ts
  induction ts with
  | nil =>
    intro acc acc2 t h hnd ht
    exact absurd ht (List.not_mem_nil t)
  | cons t0 ts ih =>
    intro acc acc2 t h hnd ht
    unfold runTables at h
    split at h
    · exact Except.noConfusion h
    · rename_i acc1 heq
      rcases List.mem_cons.mp ht with hteq | hmem
      · subst hteq
        have hnotin : t ∉ ts := (List.nodup_cons.mp hnd).1
        rw [runTables_ok_other hother ts acc1 acc2 t h hnotin]
        exact hself t acc acc1 heq
      · have ht0 : t ≠ t0 := by
          intro hc
          subst hc
          exact (List.nodup_cons.mp hnd).1 hmem
        rw [ih acc1 acc2 t h (List.nodup_cons.mp hnd).2 hmem,
          hother t0 acc acc1 t heq ht0]

lemma childTables_eq : childTables =
    ["aircraft", "engines", "narratives", "Events_Sequence", "Findings", "injury"] := rfl

lemma childTables_not_lookup {t : String} (ht : t ∈ childTables) :
    t ∉ LOOKUP_TABLES ∧ t ≠ "events" := by
  rw [childTables_eq] at ht
  fin_cases ht <;> exact ⟨by decide, by decide⟩

/-- C8 (confirmed): degraded-mode fallback.  When the scope key set of an
archive is empty (no usable events batch), every child table of a
successful application ends up exactly as KEYED_UPSERT with the declared
primary-key columns of that child table leaves it: a non-empty batch is
upserted by the child key, while absent tables and empty batches leave
the table untouched. -/
theorem empty_scope_falls_back_to_keyed_upsert (arch : Archive) (fn : String)
    (s s2 : Store) (t : String)
    (hscope : scopeKeySet arch = [])
    (ht : t ∈ childTables)
    (hok : applyUpdateFile arch fn s = Except.ok s2) :
    storeTable s2 t = childFallbackOp arch t (storeTable s t) := by
  unfold applyUpdateFile at hok
  split at hok
  · exact Except.noConfusion hok
  · rename_i s1 ids n1 heq
    have hids : ids = [] := by rw [(applyEventsStep_ok_parts heq).2, hscope]
    subst hids
    split at hok
    · exact Except.noConfusion hok
    · rename_i sc nc heq2
      split at hok
      · exact Except.noConfusion hok
      · rename_i sl nl heq3
        simp only [Except.ok.injEq] at hok
        rw [← hok]
        show storeTable sl t = childFallbackOp arch t (storeTable s t)
        have hlk : storeTable sl t = storeTable sc t :=
          runTables_ok_other (fun _ _ _ _ hh hm => applyLookupTable_ok_other hh hm)
            LOOKUP_TABLES (sc, nc) (sl, nl) t heq3 (childTables_not_lookup ht).1
        have hch : storeTable sc t = childFallbackOp arch t (storeTable s1 t) :=
          runTables_ok_target (fun _ _ _ _ hh hm => applyChildTable_ok_other hh hm)
            (fun _ _ _ hh => applyChildTable_ok_self_empty_scope hh)
            childTables (s1, n1) (sc, nc) t heq2 (by decide) ht
        have hev : storeTable s1 t = storeTable s t :=
          applyEventsStep_ok_other heq (childTables_not_lookup ht).2
        rw [hlk, hch, hev]

/-- C8 witness archive: no events table, one non-empty aircraft batch. -/
def noEventsArchive : Archive := fun t =>
  if t == "aircraft" then
    ExtractResult.batch [[("ev_id", Value.textV "E9"), ("aircraft_key", Value.intV 1)]]
  else ExtractResult.absent

/-- Witness for C8 at the concrete events-free archive. -/
theorem empty_scope_falls_back_to_keyed_upsert_witness :
    scopeKeySet noEventsArchive = [] ∧
    ("aircraft" : String) ∈ childTables ∧
    applyUpdateFile noEventsArchive "up01JAN25.zip" emptyStore =
      Except.ok
        { tables := [("aircraft",
              [[("ev_id", Value.textV "E9"), ("aircraft_key", Value.intV 1)]])],
          ledger := [("up01JAN25.zip", 1)] } ∧
    storeTable
        { tables := [("aircraft",
              [[("ev_id", Value.textV "E9"), ("aircraft_key", Value.intV 1)]])],
          ledger := [("up01JAN25.zip", 1)] } "aircraft" =
      childFallbackOp noEventsArchive "aircraft" (storeTable emptyStore "aircraft") :=
  ⟨rfl, by decide, rfl,
    empty_scope_falls_back_to_keyed_upsert noEventsArchive "up01JAN25.zip" emptyStore _
      "aircraft" rfl (by decide) rfl⟩

/-! ### C9 -/

/-- C9 (confirmed): seed precondition.  When the store file already
exists and force is not given, seed exits with a non-zero status before
touching anything (the model returns an error, and the result does not
depend on the existing store, which is therefore untouched); with the
force override the existing file is unlinked before any load begins, so
seeding proceeds exactly as if no store had existed, starting from an
empty store. -/
theorem seed_requires_absent_store_or_force (st : Store) (arch : Archive) :
    (∃ c, seed (some st) false arch = Except.error c ∧ c ≠ 0) ∧
    seed (some st) true arch = seed none false arch :=
  ⟨⟨1, rfl, by decide⟩, rfl⟩

/-! ### C6: the incremental orchestrator -/

lemma mem_newUpdateFiles {g : String} {available processed : List String} :
    g ∈ newUpdateFiles available processed ↔
      g ∈ available ∧ isUpdateFile g = true ∧ g ∉ processed := by
  unfold newUpdateFiles get_update_files
  rw [List.mem_insertionSort]
  simp only [List.mem_filter, Bool.not_eq_true']
  constructor
  · rintro ⟨⟨hav, hupd⟩, hcon⟩
    refine ⟨hav, hupd, ?_⟩
    intro hmem
    have htrue : processed.contains g = true := by
      rw [List.contains_iff_exists_mem_beq]
      exact ⟨g, hmem, by simp⟩
    rw [htrue] at hcon
    exact Bool.noConfusion hcon
  · rintro ⟨hav, hupd, hnot⟩
    refine ⟨⟨hav, hupd⟩, ?_⟩
    cases hcg : processed.contains g with
    | false => rfl
    | true =>
      rw [List.contains_iff_exists_mem_beq] at hcg
      obtain ⟨x, hx, hbeq⟩ := hcg
      have hgx : g = x := by simpa using hbeq
      exact absurd (hgx ▸ hx) hnot

lemma newUpdateFiles_perm_invariant {available available2 processed : List String}
    (hperm : available.Perm available2) :
    newUpdateFiles available2 processed = newUpdateFiles available processed := by
  unfold newUpdateFiles get_update_files
  refine List.eq_of_perm_of_sorted ?_
    (List.sorted_insertionSort _ _) (List.sorted_insertionSort _ _)
  exact (List.perm_insertionSort _ _).trans
    (((hperm.filter _).filter _).symm.trans (List.perm_insertionSort _ _).symm)

lemma get_processed_files_log_of_not_mem {fn : String} {c : Nat} {ledger : Ledger}
    (h : fn ∉ get_processed_files ledger) :
    get_processed_files (log_processed_file fn c ledger) =
      get_processed_files ledger ++ [fn] := by
  simp only [get_processed_files] at h ⊢
  unfold log_processed_file
  rw [List.map_append]
  have hfix : ledger.filter (fun p => p.1 != fn) = ledger := by
    rw [List.filter_eq_self]
    intro a ha
    have hne : a.1 ≠ fn := by
      intro hc
      exact h (List.mem_map.mpr ⟨a, ha, hc⟩)
    simpa [bne] using hne
  rw [hfix]
  rfl

lemma applyLoop_ok_ledger (archOf : String → Archive) :
    ∀ (files : List String) (s : Store), files.Nodup →
      (∀ f ∈ files, f ∉ get_processed_files s.ledger) →
      ∀ s2, applyLoop archOf files s = Except.ok s2 →
        get_processed_files s2.ledger = get_processed_files s.ledger ++ files := by
  intro files
  induction files with
  | nil =>
    intro s _ _ s2 h
    unfold applyLoop at h
    simp only [Except.ok.injEq] at h
    rw [← h, List.append_nil]
  | cons f fs ih =>
    intro s hnd hnin s2 h
    unfold applyLoop at h
    split at h
    · exact Except.noConfusion h
    · rename_i s1 heq
      obtain ⟨c, hc⟩ := applyUpdateFile_ok_ledger heq
      have hn1 : get_processed_files s1.ledger = get_processed_files s.ledger ++ [f] := by
        rw [hc]
        exact get_processed_files_log_of_not_mem (hnin f (List.mem_cons_self f fs))
      have hfs : ∀ g ∈ fs, g ∉ get_processed_files s1.ledger := by
        intro g hg
        rw [hn1]
        simp only [List.mem_append, List.mem_singleton]
        push_neg
        refine ⟨hnin g (List.mem_cons_of_mem f hg), ?_⟩
        intro hgf
        subst hgf
        exact (List.nodup_cons.mp hnd).1 hg
      rw [ih s1 (List.nodup_cons.mp hnd).2 hfs s2 h, hn1, List.append_assoc]
      rfl

lemma applyLoop_error_ledger (archOf : String → Archive) :
    ∀ (files : List String) (s : Store), files.Nodup →
      (∀ f ∈ files, f ∉ get_processed_files s.ledger) →
      ∀ e f0, applyLoop archOf files s = Except.error (e, f0) →
        ∃ l1 l2, files = l1 ++ f0 :: l2 ∧
          get_processed_files e.ledger = get_processed_files s.ledger ++ l1 := by
  intro files
  induction files with
  | nil =>
    intro s _ _ e f0 h
    unfold applyLoop at h
    exact Except.noConfusion h
  | cons f fs ih =>
    intro s hnd hnin e f0 h
    unfold applyLoop at h
    split at h
    · rename_i e1 heq
      simp only [Except.error.injEq, Prod.mk.injEq] at h
      obtain ⟨he, hf⟩ := h
      refine ⟨[], fs, by rw [← hf, List.nil_append], ?_⟩
      rw [← he, applyUpdateFile_error_ledger heq, List.append_nil]
    · rename_i s1 heq
      obtain ⟨c, hc⟩ := applyUpdateFile_ok_ledger heq
      have hn1 : get_processed_files s1.ledger = get_processed_files s.ledger ++ [f] := by
        rw [hc]
        exact get_processed_files_log_of_not_mem (hnin f (List.mem_cons_self f fs))
      have hfs : ∀ g ∈ fs, g ∉ get_processed_files s1.ledger := by
        intro g hg
        rw [hn1]
        simp only [List.mem_append, List.mem_singleton]
        push_neg
        refine ⟨hnin g (List.mem_cons_of_mem f hg), ?_⟩
        intro hgf
        subst hgf
        exact (List.nodup_cons.mp hnd).1 hg
      obtain ⟨l1, l2, hsplit, hnames⟩ := ih s1 (List.nodup_cons.mp hnd).2 hfs e f0 h
      refine ⟨f :: l1, l2, by rw [hsplit]; rfl, ?_⟩
      rw [hnames, hn1, List.append_assoc]
      rfl

/-- C6 (confirmed): the incremental orchestrator submits archives in
lexicographically sorted order over the set difference between the
discovered update archives and the ledgered names, independently of the
discovery order; on success the ledger gains exactly those names in
order; if one application fails, the run stops there — earlier archives
of the run are committed (their ledger entries are present), while the
failing archive and every later one have no ledger entry. -/
theorem update_sorted_order_and_failure_semantics
    (archOf : String → Archive) (available available2 : List String) (s : Store)
    (hnodup : available.Nodup) (hperm : available.Perm available2) :
    List.Sorted (fun a b : String => a ≤ b)
        (newUpdateFiles available (get_processed_files s.ledger)) ∧
    (∀ g, g ∈ newUpdateFiles available (get_processed_files s.ledger) ↔
        (g ∈ available ∧ isUpdateFile g = true ∧ g ∉ get_processed_files s.ledger)) ∧
    newUpdateFiles available2 (get_processed_files s.ledger) =
      newUpdateFiles available (get_processed_files s.ledger) ∧
    (∀ s2, updateRun archOf available s = Except.ok s2 →
        get_processed_files s2.ledger =
          get_processed_files s.ledger ++
            newUpdateFiles available (get_processed_files s.ledger)) ∧
    (∀ e f, updateRun archOf available s = Except.error (e, f) →
        ∃ l1 l2,
          newUpdateFiles available (get_processed_files s.ledger) = l1 ++ f :: l2 ∧
          get_processed_files e.ledger = get_processed_files s.ledger ++ l1 ∧
          f ∉ get_processed_files e.ledger ∧
          ∀ g ∈ l2, g ∉ get_processed_files e.ledger) := by
  have hsorted : List.Sorted (fun a b : String => a ≤ b)
      (newUpdateFiles available (get_processed_files s.ledger)) :=
    List.sorted_insertionSort _ _
  have hmem : ∀ g, g ∈ newUpdateFiles available (get_processed_files s.ledger) ↔
      (g ∈ available ∧ isUpdateFile g = true ∧ g ∉ get_processed_files s.ledger) :=
    fun g => mem_newUpdateFiles
  have hnfnodup : (newUpdateFiles available (get_processed_files s.ledger)).Nodup := by
    have h1 : (((available.filter isUpdateFile)).filter
        (fun f => !((get_processed_files s.ledger).contains f))).Nodup :=
      (hnodup.filter _).filter _
    exact (List.perm_insertionSort _ _).symm.nodup h1
  have hnin : ∀ f ∈ newUpdateFiles available (get_processed_files s.ledger),
      f ∉ get_processed_files s.ledger :=
    fun f hf => ((hmem f).1 hf).2.2
  refine ⟨hsorted, hmem, newUpdateFiles_perm_invariant hperm, ?_, ?_⟩
  · intro s2 h
    exact applyLoop_ok_ledger archOf _ s hnfnodup hnin s2 h
  · intro e f h
    obtain ⟨l1, l2, hsplit, hnames⟩ :=
      applyLoop_error_ledger archOf _ s hnfnodup hnin e f h
    refine ⟨l1, l2, hsplit, hnames, ?_, ?_⟩
    · rw [hnames]
      simp only [List.mem_append]
      push_neg
      constructor
      · have hfnf : f ∈ newUpdateFiles available (get_processed_files s.ledger) := by
          rw [hsplit]
          exact List.mem_append_right _ (List.mem_cons_self _ _)
        exact ((hmem f).1 hfnf).2.2
      · have hnd2 := hnfnodup
        rw [hsplit] at hnd2
        have hdisj := List.disjoint_of_nodup_append hnd2
        intro hfl1
        exact hdisj hfl1 (List.mem_cons_self _ _)
    · intro g hg
      rw [hnames]
      simp only [List.mem_append]
      push_neg
      constructor
      · have hgnf : g ∈ newUpdateFiles available (get_processed_files s.ledger) := by
          rw [hsplit]
          exact List.mem_append_right _ (List.mem_cons_of_mem _ hg)
        exact ((hmem g).1 hgnf).2.2
      · have hnd2 := hnfnodup
        rw [hsplit] at hnd2
        have hdisj := List.disjoint_of_nodup_append hnd2
        intro hgl1
        exact hdisj hgl1 (List.mem_cons_of_mem _ hg)

/-- A discovery listing used by the C6 witness. -/
def availA : List String := ["up02FEB25.zip", "a.zip", "up01JAN25.zip"]

/-- The same listing in a different discovery order. -/
def availB : List String := ["a.zip", "up01JAN25.zip", "up02FEB25.zip"]

/-- An archive source whose every table is absent (archives apply as
no-ops), used by the C6 witness. -/
def absentArchOf : String → Archive := fun _ _ => ExtractResult.absent

/-- Witness for C6 at a concrete three-file listing and its permutation. -/
theorem update_sorted_order_and_failure_semantics_witness :
    availA.Nodup ∧
    availA.Perm availB ∧
    (List.Sorted (fun a b : String => a ≤ b)
        (newUpdateFiles availA (get_processed_files emptyStore.ledger)) ∧
      (∀ g, g ∈ newUpdateFiles availA (get_processed_files emptyStore.ledger) ↔
          (g ∈ availA ∧ isUpdateFile g = true ∧
            g ∉ get_processed_files emptyStore.ledger)) ∧
      newUpdateFiles availB (get_processed_files emptyStore.ledger) =
        newUpdateFiles availA (get_processed_files emptyStore.ledger) ∧
      (∀ s2, updateRun absentArchOf availA emptyStore = Except.ok s2 →
          get_processed_files s2.ledger =
            get_processed_files emptyStore.ledger ++
              newUpdateFiles availA (get_processed_files emptyStore.ledger)) ∧
      (∀ e f, updateRun absentArchOf availA emptyStore = Except.error (e, f) →
          ∃ l1 l2,
            newUpdateFiles availA (get_processed_files emptyStore.ledger) =
              l1 ++ f :: l2 ∧
            get_processed_files e.ledger =
              get_processed_files emptyStore.ledger ++ l1 ∧
            f ∉ get_processed_files e.ledger ∧
            ∀ g ∈ l2, g ∉ get_processed_files e.ledger)) :=
  ⟨by decide, by decide,
    update_sorted_order_and_failure_semantics absentArchOf availA availB emptyStore
      (by decide) (by decide)⟩

end NTSB
